import Mathlib

set_option linter.unusedSectionVars false

/-!
Shallow embedding of the FedAvg aggregation coordinator implemented in
`src/dc_federated/algorithms/fed_avg/fed_avg_server.py`.

Modelling choices:

* Tensors are modelled as total functions `K → ℚ` from parameter keys to
  rational scalars; per-key tensor arithmetic in the source is elementwise, so
  a single scalar per key loses nothing, and ℚ replaces floating point with
  exact arithmetic.
* `datetime` timestamps are modelled as natural numbers; `datetime.now()` is
  abstracted by passing the current time as an explicit argument, and the
  sentinel `datetime(1980, 10, 10)` set in `__init__` as `0`.
* The Python dictionary `self.worker_updates` (insertion ordered) is modelled
  as an association list; iteration over the dictionary is iteration over the
  list in order.
* Python runtime exceptions that the source can raise on these paths
  (`TypeError` from subscripting `None`, `IndexError` from `list[0]` on an
  empty list) and a failing external evaluation harness are modelled with an
  `Except` monad.  All mutations of the server's own state in `agg_model`
  occur after every fallible step of the source (lines 439–444), so an
  `Except.error` result faithfully corresponds to a Python exception leaving
  the server state unmodified by `agg_model`.
* External collaborators are abstracted: the evaluation harness
  (`roni_trainer.test`) is a parameter `evalf`; the model trainer's stored
  model (`self.global_model_trainer`) is the `global_model` field; the audit
  store `roni_db.insert` and logging are ignored as external effects.

`FedAvgServerRoni.agg_model` (lines 340–446) is the functioning variant
embedded here.  The base `FedAvgServer.agg_model` (lines 201–275) shares with
it, verbatim, the threshold guard, `agg_params`, the contributor gathering
loop, the final aggregation loop and the state updates — the lines the claims
cite — and differs only in its audit middle section (lines 240–260), which
references the undefined names `json`, `create_trainer_from_config` and
`gen_agg_model` and so can never reach the shared aggregation code at runtime.
-/

namespace FedAvg

/-- Failure modes of the aggregation path.  The first three arise in the
source: `typeErrorNoneSubscript` models Python's `TypeError` raised by
`self.worker_updates[wi][0]` when the stored value is `None`; `indexError`
models `IndexError` raised by `list[0]` on an empty list; `evalFailure`
models an error raised by the external evaluation harness inside
`roni_trainer.test()`.  The last two, `noContributors` and
`insufficientContributors`, are the error kinds named by the specification;
no code path in the source ever produces them — they are included so that
their absence can be stated. -/
inductive AggErr where
  | typeErrorNoneSubscript
  | indexError
  | evalFailure
  | noContributors
  | insufficientContributors
deriving DecidableEq

/-- A stored worker update: the `(timestamp, update-size, model)` triple that
`receive_worker_update` stores in `self.worker_updates[worker_id]`
(fed_avg_server.py lines 187–191). -/
structure Record (K : Type) where
  timestamp : ℕ
  update_size : ℚ
  model : K → ℚ

/-- Result of the external evaluation harness `roni_trainer.test()`: the
dictionary with keys `"average loss"` and `"accuracy"` read at lines
419–420. -/
structure Perf where
  average_loss : ℚ
  accuracy : ℚ

/-- The mutable state of a `FedAvgServer` / `FedAvgServerRoni` instance:
`self.worker_updates`, `self.last_global_model_update_timestamp`,
`self.update_lim`, `self.unique_updates_since_last_agg`, `self.iteration`,
`self.model_version`, and the model held by `self.global_model_trainer`. -/
structure ServerState (W K : Type) where
  worker_updates : List (W × Option (Record K))
  last_global_model_update_timestamp : ℕ
  update_lim : ℕ
  unique_updates_since_last_agg : ℕ
  iteration : ℕ
  model_version : ℕ
  global_model : K → ℚ

variable {W K : Type} [DecidableEq W]

/-- Lookup in the association list modelling a Python dictionary:
`d[w]` and the membership test `w in d` (via `Option.isSome`). -/
def dictGet (w : W) : List (W × α) → Option α
  | [] => none
  | (w₀, v) :: rest => if w₀ = w then some v else dictGet w rest

/-- Assignment `d[w] = v` on the association list modelling a Python
dictionary: replaces the value at an existing key in place, otherwise
appends the new pair at the end (Python dictionaries preserve insertion
order). -/
def dictInsert (w : W) (v : α) : List (W × α) → List (W × α)
  | [] => [(w, v)]
  | (w₀, v₀) :: rest =>
      if w₀ = w then (w, v) :: rest else (w₀, v₀) :: dictInsert w v rest

/-- Deletion `d.pop(w)` restricted to the case where the key is present:
removes the first (only) pair with key `w`. -/
def dictRemove (w : W) : List (W × α) → List (W × α)
  | [] => []
  | (w₀, v₀) :: rest => if w₀ = w then rest else (w₀, v₀) :: dictRemove w rest

/-- Embeds `FedAvgServer.register_worker` (lines 104–115):
`self.worker_updates[worker_id] = None`, unconditionally.  There is no
presence check and no failure path: re-registering a worker silently resets
its stored record to `None`. -/
def register_worker (w : W) (s : ServerState W K) : ServerState W K :=
  { s with worker_updates := dictInsert w none s.worker_updates }

/-- Embeds `FedAvgServer.unregister_worker` (lines 117–128):
`self.worker_updates.pop(worker_id)`; `none` models the `KeyError` Python
raises when the worker is absent. -/
def unregister_worker (w : W) (s : ServerState W K) : Option (ServerState W K) :=
  match dictGet w s.worker_updates with
  | none => none
  | some _ => some { s with worker_updates := dictRemove w s.worker_updates }

/-- Embeds `FedAvgServer.is_global_model_most_recent` (lines 151–168):
`return self.model_version == model_version`.  The argument is an integer
supplied by a worker, so it ranges over ℤ. -/
def is_global_model_most_recent (s : ServerState W K) (model_version : ℤ) : Bool :=
  decide ((s.model_version : ℤ) = model_version)

/-- The freshness test of `receive_worker_update` (lines 183–184):
`self.worker_updates[worker_id] is None or
 self.worker_updates[worker_id][0] < self.last_global_model_update_timestamp`. -/
def isFresh (prior : Option (Record K)) (lastTs : ℕ) : Bool :=
  match prior with
  | none => true
  | some r => decide (r.timestamp < lastTs)

/-- Embeds the inner function `agg_params` (lines 216–221 and 355–360):
`agg_val = state_dicts[0][key] * update_sizes[0]`, then
`agg_val = agg_val + sd[key] * sz` for `sd, sz` in
`zip(state_dicts[1:], update_sizes[1:])`, finally
`agg_val = agg_val / sum(update_sizes)`.  Subscripting `[0]` on an empty
list raises `IndexError`. -/
def agg_params (key : K) (state_dicts : List (K → ℚ)) (update_sizes : List ℚ) :
    Except AggErr ℚ :=
  match state_dicts, update_sizes with
  | sd₀ :: restSd, sz₀ :: restSz =>
      .ok (((restSd.zip restSz).foldl (fun acc p => acc + p.1 key * p.2)
              (sd₀ key * sz₀)) / (sz₀ :: restSz).sum)
  | _, _ => .error .indexError

/-- Embeds the inner function `gen_agg_model` (lines 362–368): builds the
dictionary with, for every key of `model_subset_dicts[0]`, the value
`agg_params(key, model_subset_dicts, model_subset_sizes)`.  Since models are
total functions on `K`, the key set is all of `K`.  Subscripting `[0]` on an
empty list raises `IndexError`.  The final aggregation loop of `agg_model`
(lines 263–266 and 424–427) builds `global_model_dict` by this same
computation. -/
def gen_agg_model (state_dicts : List (K → ℚ)) (update_sizes : List ℚ) :
    Except AggErr (K → ℚ) :=
  match state_dicts, update_sizes with
  | sd₀ :: restSd, sz₀ :: restSz =>
      .ok (fun key =>
        ((restSd.zip restSz).foldl (fun acc p => acc + p.1 key * p.2)
            (sd₀ key * sz₀)) / (sz₀ :: restSz).sum)
  | _, _ => .error .indexError

/-- Modelled from the spec: the sample-count-weighted arithmetic mean
`aggregated[key] = Σ(modelState_i[key] * sampleCount_i) / Σ(sampleCount_i)`
(spec §4.2).  Stated from the specification's words, for comparison with the
source-derived `agg_params` / `gen_agg_model`. -/
def specWeightedMean (key : K) (models : List (K → ℚ)) (sizes : List ℚ) : ℚ :=
  ((models.zip sizes).map (fun p => p.1 key * p.2)).sum / sizes.sum

/-- Embeds the contributor-gathering loop of `agg_model` (lines 224–234 and
370–381): for each `wi` in `self.worker_updates`, in insertion order, the
entry is kept iff `self.worker_updates[wi][0] >
self.last_global_model_update_timestamp`.  When the stored value is `None`
(a registered worker that never submitted), the subscript `[0]` raises
`TypeError: NoneType object is not subscriptable`. -/
def gatherContributors (entries : List (W × Option (Record K))) (lastTs : ℕ) :
    Except AggErr (List (W × Record K)) :=
  match entries with
  | [] => .ok []
  | (_, none) :: _ => .error .typeErrorNoneSubscript
  | (wi, some r) :: rest =>
      if lastTs < r.timestamp then
        (gatherContributors rest lastTs).map (fun tail => (wi, r) :: tail)
      else
        gatherContributors rest lastTs

/-- Embeds the leave-one-out list comprehensions of `FedAvgServerRoni.agg_model`
(lines 397–398): `[x for index, x in enumerate(l) if index != i]`. -/
def leaveOneOutLists (l : List α) (i : ℕ) : List α :=
  (l.enum.filter (fun p => p.1 != i)).map Prod.snd

/-- Embeds one iteration of the RONI leave-one-out loop
(`FedAvgServerRoni.agg_model`, lines 396–420): build the aggregate excluding
contributor `i` and evaluate it with the external harness
(`roni_trainer.load_model_from_state_dict`; `roni_trainer.test()`).  There is
no exception handling in the source, so a harness error propagates. -/
def roniLoopStep (evalf : (K → ℚ) → Except Unit Perf)
    (state_dicts : List (K → ℚ)) (update_sizes : List ℚ) (i : ℕ) :
    Except AggErr Perf :=
  match gen_agg_model (leaveOneOutLists state_dicts i)
        (leaveOneOutLists update_sizes i) with
  | .error e => .error e
  | .ok m =>
      match evalf m with
      | .ok p => .ok p
      | .error _ => .error .evalFailure

/-- Runs `roniLoopStep` for `i = start, start+1, ...` for `fuel` iterations,
stopping at the first error; the per-step performance results go to the
external audit store and are discarded here. -/
def roniLoopAux (evalf : (K → ℚ) → Except Unit Perf)
    (state_dicts : List (K → ℚ)) (update_sizes : List ℚ) :
    ℕ → ℕ → Except AggErr Unit
  | _, 0 => .ok ()
  | i, fuel + 1 =>
      match roniLoopStep evalf state_dicts update_sizes i with
      | .error e => .error e
      | .ok _ => roniLoopAux evalf state_dicts update_sizes (i + 1) fuel

/-- Embeds the RONI loop `for i in range(len(worker_ids))`
(`FedAvgServerRoni.agg_model`, lines 396–420). -/
def roniLoop (evalf : (K → ℚ) → Except Unit Perf)
    (state_dicts : List (K → ℚ)) (update_sizes : List ℚ) (n : ℕ) :
    Except AggErr Unit :=
  roniLoopAux evalf state_dicts update_sizes 0 n

/-- Embeds `FedAvgServerRoni.agg_model` (lines 340–446), whose threshold
guard, `agg_params`, contributor gathering, final aggregation and state
updates are verbatim those of `FedAvgServer.agg_model` (lines 201–275).
Steps, in source order: threshold guard (350–351); contributor gathering
(370–381); the RONI leave-one-out loop (396–420); the final aggregation
`global_model_dict` (423–427); evaluation of the full aggregate (431–432);
installation of the new global model (439) and the state updates (441–444).
The audit-store write `roni_db.insert` (437) is an external effect and is
dropped.  `now` abstracts `datetime.now()` at line 441. -/
def roniAggModel (evalf : (K → ℚ) → Except Unit Perf) (now : ℕ)
    (s : ServerState W K) : Except AggErr (ServerState W K × Bool) :=
  if s.unique_updates_since_last_agg < s.update_lim then .ok (s, false)
  else
    match gatherContributors s.worker_updates
          s.last_global_model_update_timestamp with
    | .error e => .error e
    | .ok contribs =>
        let state_dicts := contribs.map (fun c => c.2.model)
        let update_sizes := contribs.map (fun c => c.2.update_size)
        match roniLoop evalf state_dicts update_sizes contribs.length with
        | .error e => .error e
        | .ok _ =>
            match gen_agg_model state_dicts update_sizes with
            | .error e => .error e
            | .ok g =>
                match evalf g with
                | .error _ => .error .evalFailure
                | .ok _ =>
                    .ok ({ s with
                            global_model := g,
                            last_global_model_update_timestamp := now,
                            unique_updates_since_last_agg := 0,
                            iteration := s.iteration + 1,
                            model_version := s.model_version + 1 }, true)

/-- The registry-and-counter step of `receive_worker_update` for a
registered worker whose current entry is `prior` (lines 181–191): increment
`self.unique_updates_since_last_agg` when the freshness test passes (185),
and unconditionally replace the worker's record with
`(timestamp, update_size, model)` (187–191). -/
def recordStep (w : W) (ts : ℕ) (update_size : ℚ) (model : K → ℚ)
    (prior : Option (Record K)) (s : ServerState W K) : ServerState W K :=
  { s with
    unique_updates_since_last_agg :=
      if isFresh prior s.last_global_model_update_timestamp then
        s.unique_updates_since_last_agg + 1
      else s.unique_updates_since_last_agg,
    worker_updates :=
      dictInsert w (some ⟨ts, update_size, model⟩) s.worker_updates }

/-- Embeds `FedAvgServer.receive_worker_update` (lines 170–199): if the
worker is registered, perform `recordStep` (the freshness flag, counter
increment and unconditional record replacement of lines 181–191), then call
`agg_model` (193).  Returns the resulting state together with
`.ok accepted` — `true` for the acceptance message, `false` for the
"Please register" rejection — or `.error e` when `agg_model` raises, in
which case the registry and counter mutations, which the source performs
before the `agg_model` call, persist in the returned state. -/
def receive_worker_update (evalf : (K → ℚ) → Except Unit Perf) (w : W)
    (ts : ℕ) (update_size : ℚ) (model : K → ℚ) (aggNow : ℕ)
    (s : ServerState W K) : ServerState W K × Except AggErr Bool :=
  match dictGet w s.worker_updates with
  | none => (s, .ok false)
  | some prior =>
      match roniAggModel evalf aggNow (recordStep w ts update_size model prior s) with
      | .ok (s₂, _) => (s₂, .ok true)
      | .error e => (recordStep w ts update_size model prior s, .error e)

/-- An evaluation harness that always succeeds. -/
def evalOk : (Unit → ℚ) → Except Unit Perf := fun _ => .ok ⟨0, 1⟩

/-- An evaluation harness that always fails, modelling a harness error inside
`roni_trainer.test()`. -/
def evalBad : (Unit → ℚ) → Except Unit Perf := fun _ => .error ()

/-- A server at the aggregation threshold with two contributors: sample
counts `[3, 1]` and constant parameter values `[2, 10]` — the spec's
weighted-average example. -/
def twoWorkerState : ServerState ℕ Unit :=
  { worker_updates := [(0, some ⟨5, 3, fun _ => 2⟩), (1, some ⟨6, 1, fun _ => 10⟩)],
    last_global_model_update_timestamp := 0,
    update_lim := 2,
    unique_updates_since_last_agg := 2,
    iteration := 0,
    model_version := 0,
    global_model := fun _ => 0 }

/-- A sequence of submissions `(timestamp, update-size, model, agg-time)`
from one worker, applied in order through `receive_worker_update`, keeping
the resulting states. -/
def submitList (evalf : (K → ℚ) → Except Unit Perf) (w : W)
    (subs : List (ℕ × ℚ × (K → ℚ) × ℕ)) (s : ServerState W K) :
    ServerState W K :=
  subs.foldl
    (fun st x => (receive_worker_update evalf w x.1 x.2.1 x.2.2.1 x.2.2.2 st).1) s

/-- The freshly initialized server of `__init__` (lines 78–102): empty
registry, sentinel round timestamp, zero counters. -/
def initState (lim : ℕ) : ServerState ℕ Unit :=
  { worker_updates := [],
    last_global_model_update_timestamp := 0,
    update_lim := lim,
    unique_updates_since_last_agg := 0,
    iteration := 0,
    model_version := 0,
    global_model := fun _ => 0 }

/-- The spec's threshold-2 scenario, mid-way: workers `0` (A), `1` (B) and
`2` (C) registered in that order, then A's update (size 5, timestamp 5)
accepted; C has submitted nothing, so its stored entry is still `None`. -/
def abcState : ServerState ℕ Unit :=
  (receive_worker_update evalOk 0 5 5 (fun _ => 1) 6
    (register_worker 2 (register_worker 1 (register_worker 0 (initState 2))))).1

/-- A server whose registry is empty while the unique-update counter has
already reached the threshold (reachable by unregistering every counted
worker after an aborted aggregation). -/
def emptyRegistryState : ServerState ℕ Unit :=
  { worker_updates := [],
    last_global_model_update_timestamp := 0,
    update_lim := 2,
    unique_updates_since_last_agg := 2,
    iteration := 0,
    model_version := 0,
    global_model := fun _ => 0 }

/-- A server at threshold 1 with exactly one contributor. -/
def oneContribState : ServerState ℕ Unit :=
  { worker_updates := [(0, some ⟨5, 3, fun _ => 2⟩)],
    last_global_model_update_timestamp := 0,
    update_lim := 1,
    unique_updates_since_last_agg := 1,
    iteration := 0,
    model_version := 0,
    global_model := fun _ => 0 }

/-- A one-worker registry whose worker has not submitted yet, threshold 3. -/
def oneWorkerState : ServerState ℕ Unit :=
  { worker_updates := [(0, none)],
    last_global_model_update_timestamp := 0,
    update_lim := 3,
    unique_updates_since_last_agg := 0,
    iteration := 0,
    model_version := 0,
    global_model := fun _ => 0 }

/-- A server below the aggregation threshold (one unique update, limit 2). -/
def deferState : ServerState ℕ Unit :=
  { worker_updates := [(0, some ⟨5, 3, fun _ => 2⟩), (1, some ⟨6, 1, fun _ => 10⟩)],
    last_global_model_update_timestamp := 0,
    update_lim := 2,
    unique_updates_since_last_agg := 1,
    iteration := 0,
    model_version := 0,
    global_model := fun _ => 0 }

/-- Invariant relating a state `st` reached by repeated same-round
submissions from worker `w` to the round-start state `s₀`: the round
timestamp and the threshold are unchanged, the unique-update counter has
grown by at most one, either the counter is still at its round-start value
or `w`'s stored record is from this round (its timestamp is not before the
round start), and `w` stays registered. -/
def sameRoundInv (w : W) (s₀ st : ServerState W K) : Prop :=
  st.last_global_model_update_timestamp
      = s₀.last_global_model_update_timestamp ∧
  st.update_lim = s₀.update_lim ∧
  st.unique_updates_since_last_agg
      ≤ s₀.unique_updates_since_last_agg + 1 ∧
  (st.unique_updates_since_last_agg = s₀.unique_updates_since_last_agg ∨
    ∃ r, dictGet w st.worker_updates = some (some r) ∧
      s₀.last_global_model_update_timestamp ≤ r.timestamp) ∧
  ∃ p, dictGet w st.worker_updates = some p

section Lemmas

/-- Looking up a key right after inserting it yields the inserted value. -/
theorem dictGet_dictInsert_self (w : W) (v : α) (l : List (W × α)) :
    dictGet w (dictInsert w v l) = some v := by
  induction l with
  | nil => simp [dictInsert, dictGet]
  | cons p rest ih =>
      obtain ⟨w₀, v₀⟩ := p
      by_cases h : w₀ = w
      · simp [dictInsert, dictGet, h]
      · simp [dictInsert, dictGet, h, ih]

/-- `receive_worker_update` on an unregistered worker rejects the update and
returns the state unchanged. -/
theorem receive_unregistered (evalf : (K → ℚ) → Except Unit Perf) (w : W)
    (ts : ℕ) (sz : ℚ) (m : K → ℚ) (aggNow : ℕ) (s : ServerState W K)
    (hd : dictGet w s.worker_updates = none) :
    receive_worker_update evalf w ts sz m aggNow s = (s, .ok false) := by
  unfold receive_worker_update
  rw [hd]

/-- `receive_worker_update` on a registered worker performs `recordStep` and
then dispatches on the result of `agg_model`. -/
theorem receive_registered (evalf : (K → ℚ) → Except Unit Perf) (w : W)
    (ts : ℕ) (sz : ℚ) (m : K → ℚ) (aggNow : ℕ) (s : ServerState W K)
    (prior : Option (Record K))
    (hd : dictGet w s.worker_updates = some prior) :
    receive_worker_update evalf w ts sz m aggNow s =
      match roniAggModel evalf aggNow (recordStep w ts sz m prior s) with
      | .ok (s₂, _) => (s₂, .ok true)
      | .error e => (recordStep w ts sz m prior s, .error e) := by
  unfold receive_worker_update
  rw [hd]

/-- `agg_model` defers (returns `False` with the state untouched) whenever the
unique-update counter is strictly below the threshold. -/
theorem agg_defer (evalf : (K → ℚ) → Except Unit Perf) (now : ℕ)
    (s : ServerState W K)
    (h : s.unique_updates_since_last_agg < s.update_lim) :
    roniAggModel evalf now s = .ok (s, false) := by
  unfold roniAggModel
  rw [if_pos h]

/-- The running-sum loop of `agg_params` computes the initial value plus the
sum of the per-contributor products. -/
theorem foldl_add_mul (key : K) (l : List ((K → ℚ) × ℚ)) (a : ℚ) :
    l.foldl (fun acc p => acc + p.1 key * p.2) a
      = a + (l.map (fun p => p.1 key * p.2)).sum := by
  induction l generalizing a with
  | nil => simp
  | cons p rest ih => simp [ih, add_assoc]

/-- On non-empty argument lists, `agg_params` returns exactly the
sample-count-weighted arithmetic mean of the spec formula. -/
theorem agg_params_eq (key : K) (sd₀ : K → ℚ) (restSd : List (K → ℚ))
    (sz₀ : ℚ) (restSz : List ℚ) :
    agg_params key (sd₀ :: restSd) (sz₀ :: restSz)
      = .ok (specWeightedMean key (sd₀ :: restSd) (sz₀ :: restSz)) := by
  have h : agg_params key (sd₀ :: restSd) (sz₀ :: restSz)
      = Except.ok ((List.foldl (fun acc p => acc + p.1 key * p.2)
          (sd₀ key * sz₀) (restSd.zip restSz)) / (sz₀ :: restSz).sum) := rfl
  rw [h, foldl_add_mul]
  unfold specWeightedMean
  simp [List.zip_cons_cons]

/-- On non-empty argument lists, `gen_agg_model` returns the model assigning
to every key the sample-count-weighted arithmetic mean of the spec formula. -/
theorem gen_agg_model_eq (sd₀ : K → ℚ) (restSd : List (K → ℚ))
    (sz₀ : ℚ) (restSz : List ℚ) :
    gen_agg_model (sd₀ :: restSd) (sz₀ :: restSz)
      = .ok (fun key => specWeightedMean key (sd₀ :: restSd) (sz₀ :: restSz)) := by
  have h : gen_agg_model (sd₀ :: restSd) (sz₀ :: restSz)
      = Except.ok (fun key => (List.foldl (fun acc p => acc + p.1 key * p.2)
          (sd₀ key * sz₀) (restSd.zip restSz)) / (sz₀ :: restSz).sum) := rfl
  rw [h]
  congr 1
  funext key
  rw [foldl_add_mul]
  unfold specWeightedMean
  simp [List.zip_cons_cons]

/-- The `enumerate`-and-filter comprehension over a shifted enumeration
removes exactly the element at the filtered index. -/
theorem enumFrom_filter_ne_map (l : List α) (n i : ℕ) :
    ((List.enumFrom n l).filter (fun p => p.1 != i)).map Prod.snd
      = if i < n then l else l.eraseIdx (i - n) := by
  induction l generalizing n with
  | nil => simp [List.eraseIdx]
  | cons a rest ih =>
      by_cases h : n = i
      · subst h
        have h1 : n < n + 1 := Nat.lt_succ_self n
        simp [List.enumFrom, List.filter, ih, h1, Nat.sub_self]
      · have hne : (n != i) = true := by simpa using h
        by_cases hlt : i < n
        · have hlt1 : i < n + 1 := Nat.lt_succ_of_lt hlt
          simp [List.enumFrom, List.filter, hne, ih, hlt, hlt1]
        · have hgt : n < i := Nat.lt_of_le_of_ne (Nat.le_of_not_lt hlt) h
          have hlt1 : ¬ i < n + 1 := by omega
          have hsub : i - n = (i - (n + 1)) + 1 := by omega
          simp [List.enumFrom, List.filter, hne, ih, hlt, hlt1, hsub]

/-- The leave-one-out comprehension of the RONI loop removes exactly the
contributor at index `i`. -/
theorem leaveOneOutLists_eq (l : List α) (i : ℕ) :
    leaveOneOutLists l i = l.eraseIdx i := by
  unfold leaveOneOutLists
  have h := enumFrom_filter_ne_map l 0 i
  simpa [List.enum] using h

/-- One same-round submission by a registered worker preserves
`sameRoundInv`, provided the worker's counter headroom keeps the round from
aggregating and the submission timestamp is not before the round start. -/
theorem sameRoundInv_step (evalf : (K → ℚ) → Except Unit Perf) (w : W)
    (ts : ℕ) (sz : ℚ) (m : K → ℚ) (aggNow : ℕ) (s₀ st : ServerState W K)
    (hlim : s₀.unique_updates_since_last_agg + 1 < s₀.update_lim)
    (hts : s₀.last_global_model_update_timestamp ≤ ts)
    (hinv : sameRoundInv w s₀ st) :
    sameRoundInv w s₀ (receive_worker_update evalf w ts sz m aggNow st).1 := by
  obtain ⟨hlts, hl, hle, hdisj, p, hp⟩ := hinv
  rw [receive_registered evalf w ts sz m aggNow st p hp]
  have hcnt : (recordStep w ts sz m p st).unique_updates_since_last_agg
      ≤ s₀.unique_updates_since_last_agg + 1 := by
    unfold recordStep
    dsimp only
    by_cases hf : isFresh p st.last_global_model_update_timestamp
    · rw [if_pos hf]
      rcases hdisj with hc | ⟨r, hr, hge⟩
      · omega
      · have hpr : p = some r := by
          rw [hp] at hr
          exact Option.some.inj hr
        subst hpr
        unfold isFresh at hf
        have hlt := of_decide_eq_true hf
        rw [hlts] at hlt
        omega
    · rw [if_neg hf]
      omega
  have hdef : (recordStep w ts sz m p st).unique_updates_since_last_agg
      < (recordStep w ts sz m p st).update_lim := by
    have hl2 : (recordStep w ts sz m p st).update_lim = s₀.update_lim := hl
    omega
  rw [agg_defer evalf aggNow _ hdef]
  refine ⟨hlts, hl, hcnt, Or.inr ⟨⟨ts, sz, m⟩, ?_, hts⟩, ⟨some ⟨ts, sz, m⟩, ?_⟩⟩
  · exact dictGet_dictInsert_self w (some ⟨ts, sz, m⟩) st.worker_updates
  · exact dictGet_dictInsert_self w (some ⟨ts, sz, m⟩) st.worker_updates

/-- `sameRoundInv` is preserved by any same-round sequence of submissions
from the same worker. -/
theorem sameRoundInv_submitList (evalf : (K → ℚ) → Except Unit Perf) (w : W)
    (subs : List (ℕ × ℚ × (K → ℚ) × ℕ)) (s₀ st : ServerState W K)
    (hlim : s₀.unique_updates_since_last_agg + 1 < s₀.update_lim)
    (hts : ∀ x ∈ subs, s₀.last_global_model_update_timestamp ≤ x.1)
    (hinv : sameRoundInv w s₀ st) :
    sameRoundInv w s₀ (submitList evalf w subs st) := by
  induction subs generalizing st with
  | nil => exact hinv
  | cons x rest ih =>
      simp only [submitList, List.foldl_cons] at ih ⊢
      exact ih _
        (fun y hy => hts y (List.mem_cons_of_mem x hy))
        (sameRoundInv_step evalf w x.1 x.2.1 x.2.2.1 x.2.2.2 s₀ st hlim
          (hts x (List.mem_cons_self x rest)) hinv)

/-- Inversion for a successful aggregation: a `True` result can only come
from the full pipeline, and the new state is the old one with the aggregated
model installed, the round timestamp advanced, the unique-update counter
reset, and `iteration` and `model_version` incremented. -/
theorem roniAggModel_ok_true_inv (evalf : (K → ℚ) → Except Unit Perf)
    (now : ℕ) (s s₂ : ServerState W K)
    (hok : roniAggModel evalf now s = .ok (s₂, true)) :
    ¬ s.unique_updates_since_last_agg < s.update_lim ∧
    ∃ contribs g,
      gatherContributors s.worker_updates s.last_global_model_update_timestamp
        = .ok contribs ∧
      gen_agg_model (contribs.map (fun c => c.2.model))
        (contribs.map (fun c => c.2.update_size)) = .ok g ∧
      s₂ = { s with
              global_model := g,
              last_global_model_update_timestamp := now,
              unique_updates_since_last_agg := 0,
              iteration := s.iteration + 1,
              model_version := s.model_version + 1 } := by
  unfold roniAggModel at hok
  by_cases hlt : s.unique_updates_since_last_agg < s.update_lim
  · rw [if_pos hlt] at hok
    simp at hok
  · rw [if_neg hlt] at hok
    refine ⟨hlt, ?_⟩
    cases hg : gatherContributors s.worker_updates
        s.last_global_model_update_timestamp with
    | error e => rw [hg] at hok; cases hok
    | ok contribs =>
        rw [hg] at hok
        dsimp only at hok
        cases hloop : roniLoop evalf (contribs.map (fun c => c.2.model))
            (contribs.map (fun c => c.2.update_size)) contribs.length with
        | error e => rw [hloop] at hok; cases hok
        | ok u =>
            rw [hloop] at hok
            dsimp only at hok
            cases hgen : gen_agg_model (contribs.map (fun c => c.2.model))
                (contribs.map (fun c => c.2.update_size)) with
            | error e => rw [hgen] at hok; cases hok
            | ok g =>
                rw [hgen] at hok
                dsimp only at hok
                cases hev : evalf g with
                | error e => rw [hev] at hok; cases hok
                | ok p =>
                    rw [hev] at hok
                    dsimp only at hok
                    refine ⟨contribs, g, rfl, hgen, ?_⟩
                    cases hok
                    rfl

/-- Inversion for a deferred round: a `False` result can only come from the
threshold guard, so the state is returned untouched. -/
theorem roniAggModel_ok_false_inv (evalf : (K → ℚ) → Except Unit Perf)
    (now : ℕ) (s s₂ : ServerState W K)
    (hok : roniAggModel evalf now s = .ok (s₂, false)) :
    s.unique_updates_since_last_agg < s.update_lim ∧ s₂ = s := by
  unfold roniAggModel at hok
  by_cases hlt : s.unique_updates_since_last_agg < s.update_lim
  · rw [if_pos hlt] at hok
    cases hok
    exact ⟨hlt, rfl⟩
  · rw [if_neg hlt] at hok
    exfalso
    cases hg : gatherContributors s.worker_updates
        s.last_global_model_update_timestamp with
    | error e => rw [hg] at hok; cases hok
    | ok contribs =>
        rw [hg] at hok
        dsimp only at hok
        cases hloop : roniLoop evalf (contribs.map (fun c => c.2.model))
            (contribs.map (fun c => c.2.update_size)) contribs.length with
        | error e => rw [hloop] at hok; cases hok
        | ok u =>
            rw [hloop] at hok
            dsimp only at hok
            cases hgen : gen_agg_model (contribs.map (fun c => c.2.model))
                (contribs.map (fun c => c.2.update_size)) with
            | error e => rw [hgen] at hok; cases hok
            | ok g =>
                rw [hgen] at hok
                dsimp only at hok
                cases hev : evalf g with
                | error e => rw [hev] at hok; cases hok
                | ok p =>
                    rw [hev] at hok
                    dsimp only at hok
                    simp at hok

end Lemmas

/-- C10: for every server state in which `unique_updates_since_last_agg` is
strictly less than `update_lim`, calling `agg_model` returns `False` and
leaves every component of the state unchanged: `worker_updates`, the global
model held by the trainer, `last_global_model_update_timestamp`,
`unique_updates_since_last_agg`, `iteration`, and `model_version`. -/
theorem c10_below_threshold_frame (evalf : (K → ℚ) → Except Unit Perf)
    (now : ℕ) (s : ServerState W K)
    (h : s.unique_updates_since_last_agg < s.update_lim) :
    roniAggModel evalf now s = .ok (s, false) :=
  agg_defer evalf now s h

/-- Witness for C10 at a concrete below-threshold state. -/
theorem c10_below_threshold_frame_witness :
    deferState.unique_updates_since_last_agg < deferState.update_lim ∧
    roniAggModel evalOk 7 deferState = .ok (deferState, false) :=
  ⟨by decide, c10_below_threshold_frame evalOk 7 deferState (by decide)⟩

/-- C3: aggregation of the global model is deferred (`agg_model` returns
`False` and performs no aggregation) exactly when
`unique_updates_since_last_agg` is strictly below `update_lim`; once the
counter has reached the threshold the guard never returns the deferred
result, so aggregation is attempted — never skipped at the threshold and
never triggered while below it. -/
theorem c3_deferred_iff_below_threshold (evalf : (K → ℚ) → Except Unit Perf)
    (now : ℕ) (s : ServerState W K) :
    roniAggModel evalf now s = .ok (s, false)
      ↔ s.unique_updates_since_last_agg < s.update_lim := by
  constructor
  · intro h
    exact (roniAggModel_ok_false_inv evalf now s s h).1
  · intro h
    exact agg_defer evalf now s h

/-- Witness for C3 at a concrete below-threshold state. -/
theorem c3_deferred_iff_below_threshold_witness :
    roniAggModel evalOk 3 deferState = .ok (deferState, false) :=
  (c3_deferred_iff_below_threshold evalOk 3 deferState).mpr (by decide)

/-- C5, counterexample to the claim as stated: a worker already present with
a stored record is silently re-initialized to the empty record by a second
`register_worker` call — there is no `AlreadyRegistered` failure and the
prior record is lost. -/
theorem c5_counterexample :
    dictGet 0 twoWorkerState.worker_updates
      = some (some ⟨5, 3, fun _ => (2 : ℚ)⟩) ∧
    dictGet 0 (register_worker 0 twoWorkerState).worker_updates = some none :=
  ⟨rfl, rfl⟩

/-- C5 as amended: `register_worker` unconditionally sets the worker's entry
to the empty record (`None`); registering an already-present worker silently
resets its record, and no failure path exists. -/
theorem c5_register_unconditional (w : W) (s : ServerState W K) :
    dictGet w (register_worker w s).worker_updates = some none := by
  unfold register_worker
  exact dictGet_dictInsert_self w none s.worker_updates

/-- C9: `model_version` increases by exactly 1 on every successful
aggregation, is unchanged on a deferred one, is unchanged by a submission
whose aggregation aborts with an exception, and
`is_global_model_most_recent v` returns `true` iff `v` equals the current
`model_version`, for every integer `v` including negative and future
values. -/
theorem c9_version_and_currency {W K : Type} [DecidableEq W] :
    (∀ (evalf : (K → ℚ) → Except Unit Perf) (now : ℕ) (s s₂ : ServerState W K),
        roniAggModel evalf now s = .ok (s₂, true) →
        s₂.model_version = s.model_version + 1)
    ∧ (∀ (evalf : (K → ℚ) → Except Unit Perf) (now : ℕ) (s s₂ : ServerState W K),
        roniAggModel evalf now s = .ok (s₂, false) →
        s₂.model_version = s.model_version)
    ∧ (∀ (evalf : (K → ℚ) → Except Unit Perf) (w : W) (ts : ℕ) (sz : ℚ)
        (m : K → ℚ) (aggNow : ℕ) (s : ServerState W K) (e : AggErr),
        (receive_worker_update evalf w ts sz m aggNow s).2 = .error e →
        (receive_worker_update evalf w ts sz m aggNow s).1.model_version
          = s.model_version)
    ∧ (∀ (s : ServerState W K) (v : ℤ),
        is_global_model_most_recent s v = true ↔ v = (s.model_version : ℤ)) := by
  refine ⟨?_, ?_, ?_, ?_⟩
  · intro evalf now s s₂ hok
    obtain ⟨-, contribs, g, -, -, hs⟩ :=
      roniAggModel_ok_true_inv evalf now s s₂ hok
    rw [hs]
  · intro evalf now s s₂ hok
    rw [(roniAggModel_ok_false_inv evalf now s s₂ hok).2]
  · intro evalf w ts sz m aggNow s e herr
    cases hd : dictGet w s.worker_updates with
    | none =>
        rw [receive_unregistered evalf w ts sz m aggNow s hd] at herr
        cases herr
    | some prior =>
        rw [receive_registered evalf w ts sz m aggNow s prior hd] at herr ⊢
        cases hagg : roniAggModel evalf aggNow (recordStep w ts sz m prior s) with
        | ok p =>
            obtain ⟨s₃, b⟩ := p
            rw [hagg] at herr
            simp at herr
        | error e₂ =>
            rfl
  · intro s v
    unfold is_global_model_most_recent
    simp [eq_comm]

/-- Witness for C9: a concrete successful aggregation advances the version
from 0 to 1. -/
theorem c9_version_and_currency_witness :
    (roniAggModel evalOk 9 twoWorkerState).toOption.map
        (fun p => (p.1.model_version, p.2)) = some (1, true) := by
  obtain ⟨s₂, h⟩ : ∃ s₂, roniAggModel evalOk 9 twoWorkerState
      = Except.ok (s₂, true) := ⟨_, rfl⟩
  have hv := c9_version_and_currency.1 evalOk 9 twoWorkerState s₂ h
  rw [h]
  simp [Except.toOption, hv, twoWorkerState]

/-- C1: on every aggregation round that completes (`agg_model` returns
`True`), the installed global model assigns to each parameter key the
sample-count-weighted arithmetic mean of the contributors' values,
`aggregated[key] = Σ (modelState_i[key] * sampleCount_i) / Σ sampleCount_i`. -/
theorem c1_weighted_average (evalf : (K → ℚ) → Except Unit Perf) (now : ℕ)
    (s s₂ : ServerState W K) (contribs : List (W × Record K))
    (hg : gatherContributors s.worker_updates
        s.last_global_model_update_timestamp = .ok contribs)
    (hok : roniAggModel evalf now s = .ok (s₂, true)) (key : K) :
    s₂.global_model key
      = specWeightedMean key (contribs.map (fun c => c.2.model))
          (contribs.map (fun c => c.2.update_size)) := by
  obtain ⟨-, contribs₂, g, hg₂, hgen, hs⟩ :=
    roniAggModel_ok_true_inv evalf now s s₂ hok
  rw [hg] at hg₂
  injection hg₂ with hceq
  subst hceq
  cases contribs with
  | nil => simp [gen_agg_model] at hgen
  | cons c rest =>
      rw [List.map_cons, List.map_cons, gen_agg_model_eq] at hgen
      injection hgen with hfun
      rw [hs]
      dsimp only
      rw [← hfun]
      simp

/-- Witness for C1: the spec's concrete instance — contributor sizes `[3, 1]`
and parameter values `[2, 10]` aggregate to exactly `4`. -/
theorem c1_weighted_average_witness :
    specWeightedMean () [fun _ => (2 : ℚ), fun _ => 10] [3, 1] = 4 ∧
    (roniAggModel evalOk 9 twoWorkerState).toOption.map
        (fun p => p.1.global_model ()) = some 4 := by
  have hmean : specWeightedMean () [fun _ => (2 : ℚ), fun _ => 10] [3, 1] = 4 := by
    norm_num [specWeightedMean]
  refine ⟨hmean, ?_⟩
  obtain ⟨s₂, h⟩ : ∃ s₂, roniAggModel evalOk 9 twoWorkerState
      = Except.ok (s₂, true) := ⟨_, rfl⟩
  have hc := c1_weighted_average evalOk 9 twoWorkerState s₂
      [(0, ⟨5, 3, fun _ => 2⟩), (1, ⟨6, 1, fun _ => 10⟩)] rfl h ()
  rw [h]
  simp only [Except.toOption, Option.map, hc, List.map_cons, List.map_nil]
  rw [hmean]

/-- C2: repeated submissions from one registered worker within one round
increment `unique_updates_since_last_agg` at most once; the counter is
incremented exactly when the worker has no prior stored record or its prior
record's timestamp strictly precedes `last_global_model_update_timestamp`
(the `isFresh` test); and after every accepted call the worker's record is
unconditionally replaced with the new `(timestamp, update_size, model)`. -/
theorem c2_unique_count_at_most_once {W K : Type} [DecidableEq W] :
    (∀ (prior : Option (Record K)) (lastTs : ℕ),
        isFresh prior lastTs = true ↔
          prior = none ∨ ∃ r, prior = some r ∧ r.timestamp < lastTs)
    ∧ (∀ (evalf : (K → ℚ) → Except Unit Perf) (w : W) (ts : ℕ) (sz : ℚ)
        (m : K → ℚ) (aggNow : ℕ) (s : ServerState W K)
        (prior : Option (Record K)),
        dictGet w s.worker_updates = some prior →
        dictGet w
            (receive_worker_update evalf w ts sz m aggNow s).1.worker_updates
          = some (some ⟨ts, sz, m⟩))
    ∧ (∀ (w : W) (ts : ℕ) (sz : ℚ) (m : K → ℚ)
        (s : ServerState W K) (prior : Option (Record K)),
        (recordStep w ts sz m prior s).unique_updates_since_last_agg =
          if isFresh prior s.last_global_model_update_timestamp then
            s.unique_updates_since_last_agg + 1
          else s.unique_updates_since_last_agg)
    ∧ (∀ (evalf : (K → ℚ) → Except Unit Perf) (w : W)
        (subs : List (ℕ × ℚ × (K → ℚ) × ℕ)) (s : ServerState W K)
        (prior : Option (Record K)),
        dictGet w s.worker_updates = some prior →
        (∀ x ∈ subs, s.last_global_model_update_timestamp ≤ x.1) →
        s.unique_updates_since_last_agg + 1 < s.update_lim →
        (submitList evalf w subs s).unique_updates_since_last_agg
          ≤ s.unique_updates_since_last_agg + 1) := by
  refine ⟨?_, ?_, ?_, ?_⟩
  · intro prior lastTs
    cases prior with
    | none => simp [isFresh]
    | some r => simp [isFresh]
  · intro evalf w ts sz m aggNow s prior hd
    rw [receive_registered evalf w ts sz m aggNow s prior hd]
    cases hagg : roniAggModel evalf aggNow (recordStep w ts sz m prior s) with
    | ok p =>
        obtain ⟨s₃, b⟩ := p
        cases b with
        | true =>
            obtain ⟨-, contribs, g, -, -, hs⟩ :=
              roniAggModel_ok_true_inv evalf aggNow _ s₃ hagg
            rw [hs]
            unfold recordStep
            exact dictGet_dictInsert_self w (some ⟨ts, sz, m⟩) s.worker_updates
        | false =>
            rw [(roniAggModel_ok_false_inv evalf aggNow _ s₃ hagg).2]
            unfold recordStep
            exact dictGet_dictInsert_self w (some ⟨ts, sz, m⟩) s.worker_updates
    | error e =>
        unfold recordStep
        exact dictGet_dictInsert_self w (some ⟨ts, sz, m⟩) s.worker_updates
  · intro w ts sz m s prior
    rfl
  · intro evalf w subs s prior hd hts hlim
    have hinv : sameRoundInv w s (submitList evalf w subs s) :=
      sameRoundInv_submitList evalf w subs s s hlim hts
        ⟨rfl, rfl, by omega, Or.inl rfl, ⟨prior, hd⟩⟩
    exact hinv.2.2.1

/-- Witness for C2: two same-round submissions by the same worker leave the
unique-update counter at exactly 1. -/
theorem c2_unique_count_at_most_once_witness :
    (submitList evalOk 0 [(1, 1, fun _ => 1, 1), (2, 1, fun _ => 1, 2)]
        oneWorkerState).unique_updates_since_last_agg
      ≤ oneWorkerState.unique_updates_since_last_agg + 1 ∧
    (submitList evalOk 0 [(1, 1, fun _ => 1, 1), (2, 1, fun _ => 1, 2)]
        oneWorkerState).unique_updates_since_last_agg = 1 :=
  ⟨c2_unique_count_at_most_once.2.2.2 evalOk 0
      [(1, 1, fun _ => 1, 1), (2, 1, fun _ => 1, 2)] oneWorkerState none rfl
      (fun x _ => Nat.zero_le x.1) (by decide),
    rfl⟩

/-- C4, the code defect: in the spec's threshold-2 scenario with workers A,
B and C where C is registered but never submits, B's second-unique
submission reaches the threshold and aggregation is attempted, but the
contributor-gathering loop subscripts C's stored `None`
(`self.worker_updates[wi][0]`, line 230/377) and raises
`TypeError: NoneType object is not subscriptable` instead of excluding C and
aggregating A's and B's updates; the submission call errors and no new
global model or version is produced. -/
theorem c4_unsubmitted_worker_crashes_aggregation :
    dictGet 2 abcState.worker_updates = some none ∧
    (receive_worker_update evalOk 1 7 5 (fun _ => 3) 8 abcState).2
      = .error .typeErrorNoneSubscript ∧
    (receive_worker_update evalOk 1 7 5 (fun _ => 3) 8 abcState).1.model_version
      = 0 :=
  ⟨rfl, rfl, rfl⟩

/-- C6, counterexample to the claim as stated: with two contributors at the
threshold and an evaluation harness that fails, `agg_model` propagates the
evaluation failure — it does not install the aggregated global model, does
not advance the version, and does not continue the remaining evaluations;
the call produces no new state at all.  (In this code the RONI audit runs
before the model installation, and there is no exception handling around
`roni_trainer.test()`.) -/
theorem c6_counterexample :
    roniAggModel evalBad 9 twoWorkerState = .error .evalFailure := rfl

/-- C6 as amended: an evaluation-harness failure during the RONI
leave-one-out pass propagates out of `agg_model`: with at least two
contributors and a failing harness the whole aggregation call errors, so the
remaining leave-one-out evaluations are skipped, the full aggregate is never
evaluated, the aggregated global model is not installed, and the model
version does not advance — auditing is gating in this code, not advisory. -/
theorem c6_eval_failure_aborts (evalf : (K → ℚ) → Except Unit Perf)
    (u : Unit) (now : ℕ) (s : ServerState W K)
    (contribs : List (W × Record K))
    (hfail : ∀ g, evalf g = Except.error u)
    (hlim : ¬ s.unique_updates_since_last_agg < s.update_lim)
    (hgather : gatherContributors s.worker_updates
        s.last_global_model_update_timestamp = .ok contribs)
    (hlen : 2 ≤ contribs.length) :
    roniAggModel evalf now s = .error .evalFailure := by
  obtain ⟨c₀, c₁, rest, rfl⟩ :
      ∃ c₀ c₁ rest, contribs = c₀ :: c₁ :: rest := by
    cases contribs with
    | nil => simp at hlen
    | cons a t =>
        cases t with
        | nil => simp at hlen
        | cons b u₂ => exact ⟨a, b, u₂, rfl⟩
  unfold roniAggModel
  rw [if_neg hlim, hgather]
  dsimp only
  have hstep : roniLoopStep evalf
      ((c₀ :: c₁ :: rest).map (fun c => c.2.model))
      ((c₀ :: c₁ :: rest).map (fun c => c.2.update_size)) 0
      = .error .evalFailure := by
    unfold roniLoopStep
    rw [leaveOneOutLists_eq, leaveOneOutLists_eq]
    simp only [List.map_cons, List.eraseIdx_cons_zero]
    rw [gen_agg_model_eq]
    dsimp only
    rw [hfail]
  simp only [List.length_cons, List.map_cons]
  unfold roniLoop
  rw [show rest.length + 1 + 1 = rest.length + 2 from rfl]
  simp only [roniLoopAux]
  simp only [List.map_cons] at hstep
  rw [hstep]

/-- Witness for C6 at a concrete two-contributor state with a failing
harness. -/
theorem c6_eval_failure_aborts_witness :
    roniAggModel evalBad 12 twoWorkerState = .error .evalFailure :=
  c6_eval_failure_aborts evalBad () 12 twoWorkerState
    [(0, ⟨5, 3, fun _ => 2⟩), (1, ⟨6, 1, fun _ => 10⟩)]
    (fun g => rfl) (by decide) rfl (by decide)

/-- C7, counterexample to the claim as stated: with exactly one contributor
the RONI leave-one-out pass does not fail with `InsufficientContributors`
(no such check exists in the code); it raises an unhandled `IndexError` from
aggregating the empty leave-one-out subset. -/
theorem c7_counterexample :
    roniAggModel evalOk 9 oneContribState = .error .indexError ∧
    roniAggModel evalOk 9 oneContribState
      ≠ .error .insufficientContributors := by
  have h : roniAggModel evalOk 9 oneContribState = .error .indexError := rfl
  refine ⟨h, ?_⟩
  intro h₂
  rw [h] at h₂
  injection h₂ with h₃
  cases h₃

/-- C7 as amended: with fewer than 2 contributors the leave-one-out
computation fails with an unhandled `IndexError` (subscripting the empty
excluded-subset list), not with a named `InsufficientContributors` error;
with at least 2 contributors the leave-one-out aggregate excluding
contributor `i` equals the sample-count-weighted average of the remaining
contributors, with `i` removed from both numerator and denominator. -/
theorem c7_leave_one_out {K : Type} :
    (∀ (sds : List (K → ℚ)) (szs : List ℚ) (i : ℕ),
        2 ≤ sds.length → szs.length = sds.length → i < sds.length →
        gen_agg_model (leaveOneOutLists sds i) (leaveOneOutLists szs i)
          = .ok (fun key =>
              specWeightedMean key (sds.eraseIdx i) (szs.eraseIdx i)))
    ∧ (∀ (evalf : (K → ℚ) → Except Unit Perf)
        (sds : List (K → ℚ)) (szs : List ℚ),
        sds.length = 1 →
        roniLoopStep evalf sds szs 0 = .error .indexError) := by
  constructor
  · intro sds szs i h2 hlen hi
    rw [leaveOneOutLists_eq, leaveOneOutLists_eq]
    have hlen1 : 0 < (sds.eraseIdx i).length := by
      rw [List.length_eraseIdx]
      split
      · omega
      · omega
    have hlen2 : 0 < (szs.eraseIdx i).length := by
      rw [List.length_eraseIdx]
      split
      · omega
      · omega
    obtain ⟨a, l, ha⟩ :=
      List.exists_cons_of_ne_nil (List.ne_nil_of_length_pos hlen1)
    obtain ⟨b, l₂, hb⟩ :=
      List.exists_cons_of_ne_nil (List.ne_nil_of_length_pos hlen2)
    rw [ha, hb, gen_agg_model_eq, ← ha, ← hb]
  · intro evalf sds szs h1
    obtain ⟨a, rfl⟩ := List.length_eq_one.mp h1
    unfold roniLoopStep
    rw [leaveOneOutLists_eq]
    simp only [List.eraseIdx_cons_zero]
    cases leaveOneOutLists szs 0 with
    | nil => rfl
    | cons b t => rfl

/-- Witness for C7: a concrete three-contributor leave-one-out aggregate
excluding the middle contributor. -/
theorem c7_leave_one_out_witness :
    gen_agg_model
        (leaveOneOutLists
          ([fun _ => 2, fun _ => 10, fun _ => 6] : List (Unit → ℚ)) 1)
        (leaveOneOutLists [(3 : ℚ), 1, 2] 1)
      = .ok (fun key =>
          specWeightedMean key
            (List.eraseIdx
              ([fun _ => 2, fun _ => 10, fun _ => 6] : List (Unit → ℚ)) 1)
            (List.eraseIdx [(3 : ℚ), 1, 2] 1)) :=
  c7_leave_one_out.1
    ([fun _ => 2, fun _ => 10, fun _ => 6] : List (Unit → ℚ))
    [(3 : ℚ), 1, 2] 1 (by decide) (by decide) (by decide)

/-- C8, counterexample to the claim as stated: at the threshold with an
empty contributor set, `agg_model` does not fail with a guarded
`NoContributors` error (no such check exists in the code); it raises an
unhandled `IndexError` from `state_dicts_to_update_with[0]` on the empty
list. -/
theorem c8_counterexample :
    roniAggModel evalOk 5 emptyRegistryState = .error .indexError ∧
    roniAggModel evalOk 5 emptyRegistryState ≠ .error .noContributors := by
  have h : roniAggModel evalOk 5 emptyRegistryState = .error .indexError := rfl
  refine ⟨h, ?_⟩
  intro h₂
  rw [h] at h₂
  injection h₂ with h₃
  cases h₃

/-- C8 as amended: when the threshold has been reached but the contributor
set is empty, `agg_model` fails — by raising `IndexError` when the empty
contributor list is subscripted, not with a guarded `NoContributors` error —
and the abort produces no new state, leaving the global model,
`unique_updates_since_last_agg`, `iteration` and `model_version` unchanged
(every state mutation in the source occurs after the failing subscript). -/
theorem c8_empty_contributors_abort (evalf : (K → ℚ) → Except Unit Perf)
    (now : ℕ) (s : ServerState W K)
    (hlim : ¬ s.unique_updates_since_last_agg < s.update_lim)
    (hempty : gatherContributors s.worker_updates
        s.last_global_model_update_timestamp = .ok []) :
    roniAggModel evalf now s = .error .indexError := by
  unfold roniAggModel
  rw [if_neg hlim, hempty]
  rfl

/-- Witness for C8 at the concrete empty-registry threshold state. -/
theorem c8_empty_contributors_abort_witness :
    roniAggModel evalOk 11 emptyRegistryState = .error .indexError :=
  c8_empty_contributors_abort evalOk 11 emptyRegistryState (by decide) rfl

end FedAvg
